import Mathlib

/-!
Verification of the work-partitioning and aggregation scheduler of
`src/primesieve/ParallelPrimeSieve.cpp` (multi-threaded prime sieve).

The scheduler's arithmetic is embedded shallowly over `Nat`, with uint64
overflow made explicit (`% (U64MAX + 1)`) where the C++ code can wrap and
with the saturating addition `checkedAdd` modelled as an explicit `min`.
Helper functions that live outside the given source tree (`pmath.hpp`,
`config.hpp`, `PrimeSieve.cpp`) are modelled from the specification and
say so in their doc comments.  The configuration constants
`MIN_THREAD_DISTANCE` / `MAX_THREAD_DISTANCE`, whose numeric values the
specification does not give, are universally quantified parameters
(written `MINTD` / `MAXTD`).
-/

namespace Primesieve

/-- Auxiliary fuel-driven Newton iteration for `isqrt`; structurally
recursive so that concrete values reduce in the kernel. -/
def isqrtIter : Nat → Nat → Nat → Nat
  | 0, _, guess => guess
  | fuel + 1, n, guess =>
    let next := (guess + n / guess) / 2
    if next < guess then isqrtIter fuel n next else guess

/-- Modelled from the spec: `isqrt` (pmath.hpp, not under src/), the integer
square root.  Proved equal to `Nat.sqrt` in `isqrt_eq_sqrt` below. -/
def isqrt (n : Nat) : Nat :=
  if n ≤ 1 then n else isqrtIter n n (n / 2)

/-- The largest uint64 value, 2^64 - 1. -/
def U64MAX : Nat := 18446744073709551615

/-- Modelled from the spec: `checkedAdd` (pmath.hpp, not under src/),
overflow-safe addition that saturates at the largest uint64 value instead
of wrapping. -/
def checkedAdd (a b : Nat) : Nat := min (a + b) U64MAX

/-- Modelled from the spec: `inBetween` (pmath.hpp, not under src/), which
clamps `x` into the interval `[lo, hi]`. -/
def inBetween (lo x hi : Nat) : Nat :=
  if x < lo then lo else if hi < x then hi else x

/-- Modelled from the spec: `PrimeSieve::getDistance` (not under src/), the
length `stop - start` of the sieving interval (0 on an empty interval). -/
def getDistance (start stop : Nat) : Nat := stop - start

/-- `ParallelPrimeSieve::idealNumThreads` from the source: an ideal number
of threads for the range `[start, stop]`, given the configured thread count
`numThreads` and the configuration constant `MINTD` (MIN_THREAD_DISTANCE). -/
def idealNumThreads (MINTD numThreads start stop : Nat) : Nat :=
  if stop < start then 1
  else
    let threshold := max MINTD (isqrt stop / 5)
    let threads := getDistance start stop / threshold
    inBetween 1 threads numThreads

/-- The value of `threadDistance` in `ParallelPrimeSieve::getThreadDistance`
just before the final round-up to a multiple of 30: the clamped
`min(balanced, unbalanced)`, replaced by `max(MINTD, unbalanced)` when it
would produce fewer than `threads * 5` chunks. -/
def threadDistPre (MINTD MAXTD start stop threads : Nat) : Nat :=
  let unbalanced := getDistance start stop / threads
  let balanced := isqrt stop * 1000
  let fastest := min balanced unbalanced
  let threadDistance := inBetween MINTD fastest MAXTD
  let chunks := getDistance start stop / threadDistance
  if chunks < threads * 5 then max MINTD unbalanced else threadDistance

/-- `ParallelPrimeSieve::getThreadDistance` from the source: the chunk
length used by the worker loop; `threadDistance += 30 - threadDistance % 30`
is uint64 arithmetic, hence the explicit wrap. -/
def getThreadDistance (MINTD MAXTD start stop threads : Nat) : Nat :=
  let threadDistance := threadDistPre MINTD MAXTD start stop threads
  (threadDistance + (30 - threadDistance % 30)) % (U64MAX + 1)

/-- `ParallelPrimeSieve::align` from the source: align `n` to modulo
(30 + 2) to prevent prime k-tuplet gaps, clipping at the sieving bound
`stop` (the member `stop_`). -/
def align (stop n : Nat) : Nat :=
  let n32 := checkedAdd n 32
  if stop ≤ n32 then stop else n32 - n % 30

/-- The tentative chunk start `start_ + i * threadDistance` computed by a
worker under the lock; uint64 arithmetic, hence the explicit wrap. -/
def tentStart (start D i : Nat) : Nat := (start + i * D) % (U64MAX + 1)

/-- The chunk stop computed by a worker:
`align(checkedAdd(start + i * threadDistance, threadDistance))`. -/
def chunkStop (start stop D i : Nat) : Nat :=
  align stop (checkedAdd (tentStart start D i) D)

/-- The chunk start actually sieved by a worker: the tentative start for
chunk 0, and `align(tentative) + 1` (one past the previous chunk's aligned
stop) for every later chunk.  The `+ 1` is uint64 arithmetic, hence the
explicit wrap: when `align` clips to `stop = UINT64_MAX` the re-derived
start wraps to 0. -/
def chunkStart (start stop D i : Nat) : Nat :=
  if start < tentStart start D i then (align stop (tentStart start D i) + 1) % (U64MAX + 1)
  else tentStart start D i

/-- The shared iteration bound `((getDistance() - 1) / threadDistance) + 1`
of the worker loop. -/
def itersOf (start stop D : Nat) : Nat :=
  (getDistance start stop - 1) / D + 1

/-- Modelled from the spec: the external SequentialEngine
(`PrimeSieve::sieve`, not under src/), a pure function of its sub-range
returning the 6 Counters; each counter counts the numbers of the closed
sub-range selected by an abstract per-counter predicate `p` (primes, and
starts of size-2..6 prime constellations, as selected by the flags). -/
def engineCounts (p : Fin 6 → Nat → Bool) (a b : Nat) : Fin 6 → Nat :=
  fun j => ((Finset.Icc a b).filter (fun x => p j x = true)).card

/-- `ParallelPrimeSieve::sieve` from the source: the final Counters
(aggregated over all chunks by commutative addition, so modelled as a sum
over chunk indices) together with the number of worker threads spawned.
Counters are zero-initialised by `reset()` (modelled from the spec), the
empty range returns early, a single ideal thread runs the engine directly
over `[start, stop]`, and otherwise the worker pool processes `iters`
chunks. -/
def sieveResult (p : Fin 6 → Nat → Bool) (MINTD MAXTD numThreads start stop : Nat) :
    (Fin 6 → Nat) × Nat :=
  if stop < start then (fun _ => 0, 0)
  else
    let threads := idealNumThreads MINTD numThreads start stop
    if threads = 1 then (engineCounts p start stop, 0)
    else
      let D := getThreadDistance MINTD MAXTD start stop threads
      let iters := itersOf start stop D
      (fun j => ∑ i ∈ Finset.range iters,
          engineCounts p (chunkStart start stop D i) (chunkStop start stop D i) j,
        inBetween 1 threads iters)

/-- Modelled from the spec (for the refinement claim about
`idealThreadCount`): `clamp(x, lo, hi) = max(lo, min(x, hi))`, the spec's
wording of clamping. -/
def clampSpec (x lo hi : Nat) : Nat := max lo (min x hi)

/-- Modelled from the spec (for the refinement claim about
`idealThreadCount`): the spec's formula `if start > stop then 1 else
clamp(distance / threshold, 1, numThreads)` with
`threshold = max(MIN_THREAD_DISTANCE, isqrt(stop) / 5)`. -/
def idealNumThreadsSpec (MINTD numThreads start stop : Nat) : Nat :=
  if stop < start then 1
  else clampSpec (getDistance start stop / max MINTD (isqrt stop / 5)) 1 numThreads

/-- Modelled from the spec: the external status sink (`SharedMemory`, not
under src/): the six counts, the elapsed seconds (a double in the code,
abstracted as an opaque `Nat`) and the status percentage. -/
structure SharedMemory where
  counts : Fin 6 → Nat
  seconds : Nat
  status : Nat

/-- Modelled from the spec: the state touched by
`ParallelPrimeSieve::updateStatus` — the running total of processed
numbers, the published percentage, and the external sink (`none` when no
sink is attached). -/
structure StatusState where
  totalProcessed : Nat
  percent : Nat
  shm : Option SharedMemory

/-- Modelled from the spec: the percentage of the total interval length
`distance` covered by `total` processed numbers. -/
def statusPercent (distance total : Nat) : Nat := min 100 (100 * total / distance)

/-- `ParallelPrimeSieve::updateStatus` from the source, with `LockGuard`
and `PrimeSieve::updateStatus` (not under src/) modelled from the spec:
the lock is acquired exactly when `wait` is true (blocking) or the lock is
not busy; on success the running total and percentage are updated, the
attached sink receives the new percentage in its status field (the source
writes only `shm_->status`; the sink's counts and seconds are written at
the end of `sieve()`, not here) and `true` is returned; otherwise `false`
is returned and the state is left unchanged. -/
def updateStatus (distance : Nat) (s : StatusState) (processed : Nat) (wait busy : Bool) :
    Bool × StatusState :=
  if wait || !busy then
    (true,
      ⟨s.totalProcessed + processed,
        statusPercent distance (s.totalProcessed + processed),
        s.shm.map fun shm =>
          ⟨shm.counts, shm.seconds, statusPercent distance (s.totalProcessed + processed)⟩⟩)
  else (false, s)

/-! ### Basic lemmas about the helpers -/

theorem isqrtIter_eq_sqrt_iter (fuel n guess : Nat) (h : guess ≤ fuel) :
    isqrtIter fuel n guess = Nat.sqrt.iter n guess := by
  induction fuel generalizing guess with
  | zero =>
    rw [Nat.sqrt.iter]
    simp only [isqrtIter]
    have hg : guess = 0 := Nat.le_zero.mp h
    subst hg
    simp
  | succ fuel ih =>
    rw [Nat.sqrt.iter]
    simp only [isqrtIter]
    by_cases hlt : (guess + n / guess) / 2 < guess
    · rw [if_pos hlt, dif_pos hlt]
      exact ih _ (by omega)
    · rw [if_neg hlt, dif_neg hlt]

theorem isqrt_eq_sqrt (n : Nat) : isqrt n = Nat.sqrt n := by
  unfold isqrt Nat.sqrt
  by_cases h : n ≤ 1
  · simp [h]
  · simp only [h, if_false]
    exact isqrtIter_eq_sqrt_iter n n (n / 2) (Nat.div_le_self n 2)

theorem isqrt_eq_of (n q : Nat) (h1 : q * q ≤ n) (h2 : n < (q + 1) * (q + 1)) :
    isqrt n = q := by
  rw [isqrt_eq_sqrt]
  have ha : q ≤ Nat.sqrt n := Nat.le_sqrt.mpr h1
  have hb : Nat.sqrt n < q + 1 := Nat.sqrt_lt.mpr h2
  omega

/-- The integer square root of `UINT64_MAX`, needed to evaluate the planner
at the top of the uint64 range without unfolding the Newton iteration in
the kernel. -/
theorem isqrt_u64max : isqrt 18446744073709551615 = 4294967295 :=
  isqrt_eq_of 18446744073709551615 4294967295 (by norm_num) (by norm_num)

/-! ### Lemmas about `align` and `checkedAdd` -/

theorem checkedAdd_le (a b : Nat) : checkedAdd a b ≤ U64MAX := by
  unfold checkedAdd; omega

theorem le_checkedAdd (a b : Nat) (h : a ≤ U64MAX) : a ≤ checkedAdd a b := by
  unfold checkedAdd; omega

theorem checkedAdd_mono_left (a a' b : Nat) (h : a ≤ a') : checkedAdd a b ≤ checkedAdd a' b := by
  unfold checkedAdd; omega

theorem align_le (stop n : Nat) : align stop n ≤ stop := by
  simp only [align, checkedAdd, U64MAX]
  split_ifs <;> omega

theorem align_eq_stop (stop n : Nat) (hstop : stop ≤ U64MAX) (h : stop ≤ n) :
    align stop n = stop := by
  simp only [align, checkedAdd, U64MAX] at *
  split_ifs with h1
  · rfl
  · omega

theorem align_unclipped (stop n : Nat) (hstop : stop ≤ U64MAX) (h : n + 32 < stop) :
    align stop n = n + 32 - n % 30 := by
  simp only [align, checkedAdd, U64MAX] at *
  split_ifs with h1 <;> omega

theorem align_mono (stop n m : Nat) (hstop : stop ≤ U64MAX) (h : n ≤ m) :
    align stop n ≤ align stop m := by
  simp only [align, checkedAdd, U64MAX] at *
  split_ifs <;> omega

theorem le_align (stop n start : Nat) (hstop : stop ≤ U64MAX) (hss : start ≤ stop)
    (hn : start ≤ n) : start ≤ align stop n := by
  simp only [align, checkedAdd, U64MAX] at *
  split_ifs <;> omega

/-! ### Lemmas about the chunk decomposition -/

theorem mul_le_of_le_div (i D m : Nat) (h : i ≤ m / D) : i * D ≤ m :=
  calc i * D ≤ m / D * D := Nat.mul_le_mul_right D h
    _ ≤ m := Nat.div_mul_le_self m D

theorem tentStart_eq (start D i : Nat) (h : start + i * D ≤ U64MAX) :
    tentStart start D i = start + i * D := by
  unfold tentStart U64MAX at *
  exact Nat.mod_eq_of_lt (by omega)

theorem tent_le_stop (start stop D i : Nat) (hss : start ≤ stop) (hstop : stop ≤ U64MAX)
    (hi : i < itersOf start stop D) :
    tentStart start D i = start + i * D ∧ start + i * D ≤ stop := by
  have h1 : i * D ≤ getDistance start stop - 1 :=
    mul_le_of_le_div i D _ (by unfold itersOf at hi; omega)
  unfold getDistance at h1
  have h2 : start + i * D ≤ stop := by omega
  exact ⟨tentStart_eq start D i (by omega), h2⟩

theorem chunkStop_le (start stop D i : Nat) : chunkStop start stop D i ≤ stop :=
  align_le stop _

theorem le_chunkStop (start stop D i : Nat) (hss : start ≤ stop) (hstop : stop ≤ U64MAX)
    (hi : i < itersOf start stop D) : start ≤ chunkStop start stop D i := by
  obtain ⟨ht, hle⟩ := tent_le_stop start stop D i hss hstop hi
  unfold chunkStop
  refine le_align stop _ start hstop hss ?_
  calc start ≤ tentStart start D i := by omega
    _ ≤ checkedAdd (tentStart start D i) D := le_checkedAdd _ D (by rw [ht]; unfold U64MAX at *; omega)

theorem chunkStop_mono (start stop D i j : Nat) (hss : start ≤ stop) (hstop : stop ≤ U64MAX)
    (hij : i ≤ j) (hj : j < itersOf start stop D) :
    chunkStop start stop D i ≤ chunkStop start stop D j := by
  obtain ⟨hti, _⟩ := tent_le_stop start stop D i hss hstop (by omega)
  obtain ⟨htj, _⟩ := tent_le_stop start stop D j hss hstop hj
  unfold chunkStop
  refine align_mono stop _ _ hstop ?_
  refine checkedAdd_mono_left _ _ D ?_
  rw [hti, htj]
  have := Nat.mul_le_mul_right D hij
  omega

theorem chunkStop_last (start stop D : Nat) (hss : start < stop) (hstop : stop ≤ U64MAX)
    (hD : 0 < D) : chunkStop start stop D (itersOf start stop D - 1) = stop := by
  have hiters : itersOf start stop D - 1 = (getDistance start stop - 1) / D := by
    unfold itersOf
    exact Nat.add_sub_cancel _ _
  have hlt : itersOf start stop D - 1 < itersOf start stop D := by
    rw [hiters]; exact Nat.lt_succ_self _
  obtain ⟨ht, hle⟩ := tent_le_stop start stop D (itersOf start stop D - 1) (by omega) hstop hlt
  have hdm := Nat.div_add_mod (getDistance start stop - 1) D
  have hmod : (getDistance start stop - 1) % D < D := Nat.mod_lt _ hD
  have hmul : ((getDistance start stop - 1) / D) * D = D * ((getDistance start stop - 1) / D) :=
    Nat.mul_comm _ _
  have hbig : stop ≤ tentStart start D (itersOf start stop D - 1) + D := by
    rw [ht, hiters]
    unfold getDistance at *
    omega
  unfold chunkStop
  refine align_eq_stop stop _ hstop ?_
  calc stop ≤ min (tentStart start D (itersOf start stop D - 1) + D) U64MAX := by
        rw [ht]
        unfold U64MAX at *
        rw [ht] at hbig
        omega
    _ = checkedAdd (tentStart start D (itersOf start stop D - 1)) D := rfl

theorem chunkStart_zero (start stop D : Nat) (hstop : stop ≤ U64MAX) (hss : start ≤ stop) :
    chunkStart start stop D 0 = start := by
  have h0 : tentStart start D 0 = start := by
    have := tentStart_eq start D 0 (by unfold U64MAX at *; omega)
    omega
  unfold chunkStart
  rw [h0, if_neg (by omega)]

theorem chunkStart_of_lt (start stop D i : Nat) (hstop : stop < U64MAX)
    (hlt : start < tentStart start D i) :
    chunkStart start stop D i = align stop (tentStart start D i) + 1 := by
  unfold chunkStart
  rw [if_pos hlt]
  refine Nat.mod_eq_of_lt ?_
  have := align_le stop (tentStart start D i)
  unfold U64MAX at *
  omega

theorem chunkStart_succ (start stop D i : Nat) (hss : start < stop) (hstop : stop < U64MAX)
    (hD : 0 < D) (hi : i + 1 < itersOf start stop D) :
    chunkStart start stop D (i + 1) = chunkStop start stop D i + 1 := by
  have hstopLe : stop ≤ U64MAX := Nat.le_of_lt hstop
  obtain ⟨hti, hlei⟩ := tent_le_stop start stop D i (by omega) hstopLe (by omega)
  obtain ⟨hts, hles⟩ := tent_le_stop start stop D (i + 1) (by omega) hstopLe hi
  have hmul : (i + 1) * D = i * D + D := Nat.succ_mul i D
  have hlt : start < tentStart start D (i + 1) := by rw [hts]; omega
  have hca : checkedAdd (tentStart start D i) D = tentStart start D (i + 1) := by
    unfold checkedAdd
    rw [hti, hts]
    unfold U64MAX at *
    omega
  rw [chunkStart_of_lt start stop D (i + 1) hstop hlt]
  unfold chunkStop
  rw [hca]

/-- The chunks of the worker loop cover exactly `[start, chunkStop k]` after
`k + 1` of the `iters` chunks. -/
theorem coverage_aux (start stop D : Nat) (hss : start < stop) (hstop : stop < U64MAX)
    (hD : 0 < D) :
    ∀ k, k + 1 ≤ itersOf start stop D →
      (Finset.range (k + 1)).biUnion
          (fun i => Finset.Icc (chunkStart start stop D i) (chunkStop start stop D i))
        = Finset.Icc start (chunkStop start stop D k) := by
  have hstopLe : stop ≤ U64MAX := Nat.le_of_lt hstop
  intro k
  induction k with
  | zero =>
    intro _
    rw [Finset.range_one, Finset.singleton_biUnion,
      chunkStart_zero start stop D hstopLe (by omega)]
  | succ k ih =>
    intro h
    rw [Finset.range_succ, Finset.biUnion_insert, ih (by omega),
      chunkStart_succ start stop D k hss hstop hD (by omega)]
    have h1 : start ≤ chunkStop start stop D k :=
      le_chunkStop start stop D k (by omega) hstopLe (by omega)
    have h2 : chunkStop start stop D k ≤ chunkStop start stop D (k + 1) :=
      chunkStop_mono start stop D k (k + 1) (by omega) hstopLe (by omega) (by omega)
    ext x
    simp only [Finset.mem_union, Finset.mem_Icc]
    omega

/-- Coverage: for `stop < UINT64_MAX` the union of all chunks of the worker
loop is exactly the closed interval `[start, stop]`. -/
theorem chunks_cover (start stop D : Nat) (hss : start < stop) (hstop : stop < U64MAX)
    (hD : 0 < D) :
    (Finset.range (itersOf start stop D)).biUnion
        (fun i => Finset.Icc (chunkStart start stop D i) (chunkStop start stop D i))
      = Finset.Icc start stop := by
  obtain ⟨k, hk⟩ : ∃ k, itersOf start stop D = k + 1 :=
    ⟨(getDistance start stop - 1) / D, rfl⟩
  have hlast : chunkStop start stop D k = stop := by
    have h := chunkStop_last start stop D hss (Nat.le_of_lt hstop) hD
    rwa [hk, Nat.add_sub_cancel] at h
  rw [hk, coverage_aux start stop D hss hstop hD k (by omega), hlast]

/-- No overlaps: for `stop < UINT64_MAX` distinct chunks of the worker loop
are disjoint. -/
theorem chunks_disjoint (start stop D i j : Nat) (hss : start < stop) (hstop : stop < U64MAX)
    (hD : 0 < D) (hi : i < itersOf start stop D) (hj : j < itersOf start stop D) (hne : i ≠ j) :
    Disjoint (Finset.Icc (chunkStart start stop D i) (chunkStop start stop D i))
      (Finset.Icc (chunkStart start stop D j) (chunkStop start stop D j)) := by
  have hstopLe : stop ≤ U64MAX := Nat.le_of_lt hstop
  have key : ∀ a b, a < b → b < itersOf start stop D →
      Disjoint (Finset.Icc (chunkStart start stop D a) (chunkStop start stop D a))
        (Finset.Icc (chunkStart start stop D b) (chunkStop start stop D b)) := by
    intro a b hab hb
    obtain ⟨b', rfl⟩ : ∃ b', b = b' + 1 := ⟨b - 1, by omega⟩
    have hcs : chunkStart start stop D (b' + 1) = chunkStop start stop D b' + 1 :=
      chunkStart_succ start stop D b' hss hstop hD hb
    have hmono : chunkStop start stop D a ≤ chunkStop start stop D b' :=
      chunkStop_mono start stop D a b' (by omega) hstopLe (by omega) (by omega)
    rw [Finset.disjoint_left]
    intro x hx hx'
    rw [Finset.mem_Icc] at hx hx'
    omega
  rcases Nat.lt_or_ge i j with h | h
  · exact key i j h hj
  · exact (key j i (by omega) hi).symm

/-! ### Lemmas about the planner -/

theorem one_le_inBetween (x numThreads : Nat) (h : 1 ≤ numThreads) :
    1 ≤ inBetween 1 x numThreads := by
  unfold inBetween
  split_ifs <;> omega

theorem two_le_of_inBetween (x n : Nat) (h : 2 ≤ inBetween 1 x n) : 2 ≤ x := by
  unfold inBetween at h
  split_ifs at h <;> omega

theorem idealNumThreads_pos (MINTD numThreads start stop : Nat) (h : 1 ≤ numThreads) :
    1 ≤ idealNumThreads MINTD numThreads start stop := by
  simp only [idealNumThreads]
  split_ifs
  · omega
  · exact one_le_inBetween _ _ h

theorem start_lt_stop_of_ideal_two (MINTD numThreads start stop : Nat) (h3 : 0 < MINTD)
    (h : 2 ≤ idealNumThreads MINTD numThreads start stop) :
    start < stop ∧ 2 * MINTD ≤ getDistance start stop := by
  simp only [idealNumThreads] at h
  split_ifs at h with hlt
  · omega
  · have hx := two_le_of_inBetween _ _ h
    have hth : 0 < max MINTD (isqrt stop / 5) := by omega
    have hmul := (Nat.le_div_iff_mul_le hth).mp hx
    have hmax : MINTD ≤ max MINTD (isqrt stop / 5) := Nat.le_max_left _ _
    unfold getDistance at *
    omega

theorem threadDistPre_ge (MINTD MAXTD start stop threads : Nat) (h4 : MINTD ≤ MAXTD) :
    MINTD ≤ threadDistPre MINTD MAXTD start stop threads := by
  simp only [threadDistPre, inBetween]
  split_ifs <;> omega

theorem threadDistPre_le (MINTD MAXTD start stop threads : Nat) (h4 : MINTD ≤ MAXTD) :
    threadDistPre MINTD MAXTD start stop threads
      ≤ max MAXTD (getDistance start stop / threads) := by
  simp only [threadDistPre, inBetween]
  split_ifs <;> omega

theorem getThreadDistance_eq (MINTD MAXTD start stop threads : Nat)
    (hnw : threadDistPre MINTD MAXTD start stop threads + 30 ≤ U64MAX) :
    getThreadDistance MINTD MAXTD start stop threads =
      threadDistPre MINTD MAXTD start stop threads
        + (30 - threadDistPre MINTD MAXTD start stop threads % 30) := by
  simp only [getThreadDistance]
  refine Nat.mod_eq_of_lt ?_
  unfold U64MAX at *
  omega

theorem getThreadDistance_pos (MINTD MAXTD start stop threads : Nat)
    (hnw : threadDistPre MINTD MAXTD start stop threads + 30 ≤ U64MAX) :
    0 < getThreadDistance MINTD MAXTD start stop threads := by
  rw [getThreadDistance_eq MINTD MAXTD start stop threads hnw]
  omega

theorem threadDistPre_add30_le (MINTD MAXTD start stop threads : Nat)
    (h4 : MINTD ≤ MAXTD) (h5 : MAXTD + 30 ≤ U64MAX) (hstop : stop ≤ U64MAX)
    (ht2 : 2 ≤ threads) :
    threadDistPre MINTD MAXTD start stop threads + 30 ≤ U64MAX := by
  have h1 := threadDistPre_le MINTD MAXTD start stop threads h4
  have h2 : getDistance start stop / threads ≤ getDistance start stop / 2 :=
    Nat.div_le_div_left ht2 (by omega)
  have h3 : getDistance start stop ≤ U64MAX := by
    unfold getDistance U64MAX at *
    omega
  unfold U64MAX at *
  omega

/-! ### Claim theorems -/

/-- C3 counterexample: `align` does not return `(n + 32) - ((n + 32) mod 30)`.
At `n = 0`, `stop = 100` the code returns `32 - 0 % 30 = 32`, while the
claimed formula gives `32 - 32 % 30 = 30`. -/
theorem align_claimed_formula_cex : align 100 0 ≠ 0 + 32 - (0 + 32) % 30 := by decide

/-- C3 (amended): `align(n)` computes `n + 32` with saturating addition; if
that meets or exceeds `stop` it returns `stop`; otherwise it returns
`(n + 32) - (n mod 30)`, a value congruent to 2 modulo 30. -/
theorem align_amended (stop n : Nat) (hstop : stop ≤ U64MAX) :
    (stop ≤ checkedAdd n 32 → align stop n = stop) ∧
    (checkedAdd n 32 < stop →
      align stop n = n + 32 - n % 30 ∧ align stop n % 30 = 2) := by
  constructor
  · intro h
    simp only [align]
    rw [if_pos h]
  · intro h
    have h32 : n + 32 < stop := by
      unfold checkedAdd U64MAX at *
      omega
    have heq := align_unclipped stop n hstop h32
    exact ⟨heq, by rw [heq]; omega⟩

/-- Witness for `align_amended` at `stop = 200`, `n = 7`. -/
theorem align_amended_witness :
    align 200 7 = 7 + 32 - 7 % 30 ∧ align 200 7 % 30 = 2 :=
  (align_amended 200 7 (by decide)).2 (by decide)

/-- C5 counterexample: not all chunk-boundary arithmetic stays at or above
`start`: at `stop = UINT64_MAX` the re-derived chunk start
`align(start) + 1` of line 148 is uint64 and wraps below `start` to 0 —
here chunk 3 of the run over `[UINT64_MAX − 100, UINT64_MAX]` with
`threadDistance = 30`. -/
theorem chunk_boundary_wrap_cex :
    3 < itersOf 18446744073709551515 18446744073709551615 30 ∧
    chunkStart 18446744073709551515 18446744073709551615 30 3
      < 18446744073709551515 := by decide

/-- C5 (amended): every chunk stop computed by the worker loop lies in
`[start, stop]` and is clipped exactly to `stop` whenever its saturating
computation meets or exceeds `stop`; the re-derived chunk start also stays
at or above `start` whenever `stop < UINT64_MAX` (at `stop = UINT64_MAX`
the uint64 `align(start) + 1` of line 148 can wrap below `start` to 0). -/
theorem chunk_boundaries_saturate (start stop D i : Nat) (hss : start ≤ stop)
    (hstop : stop ≤ U64MAX) (hD : 0 < D) (hi : i < itersOf start stop D) :
    start ≤ chunkStop start stop D i ∧ chunkStop start stop D i ≤ stop ∧
    (stop ≤ checkedAdd (checkedAdd (tentStart start D i) D) 32 →
      chunkStop start stop D i = stop) ∧
    (stop < U64MAX → start ≤ chunkStart start stop D i) := by
  refine ⟨le_chunkStop start stop D i hss hstop hi, chunkStop_le start stop D i, ?_, ?_⟩
  · intro h
    unfold chunkStop
    simp only [align]
    rw [if_pos h]
  · intro hw
    by_cases hlt : start < tentStart start D i
    · rw [chunkStart_of_lt start stop D i hw hlt]
      have hal : start ≤ align stop (tentStart start D i) :=
        le_align stop _ start hstop hss (Nat.le_of_lt hlt)
      omega
    · obtain ⟨ht, -⟩ := tent_le_stop start stop D i hss hstop hi
      unfold chunkStart
      rw [if_neg hlt, ht]
      omega

/-- Witness for `chunk_boundaries_saturate` with `start` 1000 below
`stop = UINT64_MAX − 1`: the last chunk saturates and clips to `stop`, and
its re-derived start stays at or above `start`. -/
theorem chunk_boundaries_saturate_witness :
    (18446744073709550615:Nat) ≤ chunkStop 18446744073709550615 18446744073709551614 300 3 ∧
    chunkStop 18446744073709550615 18446744073709551614 300 3 ≤ 18446744073709551614 ∧
    (18446744073709551614 ≤ checkedAdd
        (checkedAdd (tentStart 18446744073709550615 300 3) 300) 32 →
      chunkStop 18446744073709550615 18446744073709551614 300 3 = 18446744073709551614) ∧
    (18446744073709551614 < U64MAX →
      18446744073709550615 ≤ chunkStart 18446744073709550615 18446744073709551614 300 3) :=
  chunk_boundaries_saturate 18446744073709550615 18446744073709551614 300 3 (by decide)
    (by decide) (by decide) (by decide)

/-- C2 counterexample: at `stop = UINT64_MAX` the planner-chosen chunks do
not exactly cover `[start, stop]`: with `MINTD = 30`, `MAXTD = 2*10^10`,
`numThreads = 2` over `[UINT64_MAX − 200000000120, UINT64_MAX]` the planner
picks 2 threads and `threadDistance = 20000000010` (11 chunks), and chunk
10's re-derived start wraps to 0, so 0 lies in the union of the chunks but
not in `[start, stop]`. -/
theorem chunks_partition_cex :
    ¬ ((Finset.range (itersOf 18446743873709551495 18446744073709551615
          (getThreadDistance 30 20000000000 18446743873709551495 18446744073709551615
            (idealNumThreads 30 2 18446743873709551495 18446744073709551615)))).biUnion
        (fun i => Finset.Icc
          (chunkStart 18446743873709551495 18446744073709551615
            (getThreadDistance 30 20000000000 18446743873709551495 18446744073709551615
              (idealNumThreads 30 2 18446743873709551495 18446744073709551615)) i)
          (chunkStop 18446743873709551495 18446744073709551615
            (getThreadDistance 30 20000000000 18446743873709551495 18446744073709551615
              (idealNumThreads 30 2 18446743873709551495 18446744073709551615)) i))
      = Finset.Icc 18446743873709551495 18446744073709551615) := by
  intro h
  have hideal : idealNumThreads 30 2 18446743873709551495 18446744073709551615 = 2 := by
    simp only [idealNumThreads, getDistance, inBetween]
    rw [isqrt_u64max]
    decide
  have hD2 : getThreadDistance 30 20000000000 18446743873709551495 18446744073709551615 2
      = 20000000010 := by
    simp only [getThreadDistance, threadDistPre, getDistance, inBetween]
    rw [isqrt_u64max]
    decide
  have hmem : (0:Nat) ∈ Finset.Icc 18446743873709551495 18446744073709551615 := by
    rw [← h, hideal, hD2]
    exact Finset.mem_biUnion.mpr ⟨10, Finset.mem_range.mpr (by decide),
      Finset.mem_Icc.mpr ⟨by decide, by decide⟩⟩
  rw [Finset.mem_Icc] at hmem
  omega

/-- C2 (amended): for every planner-chosen `threadDistance`, provided
`stop < UINT64_MAX`, the aligned chunks of the worker loop exactly cover
`[start, stop]` with no gaps and no overlaps (at `stop = UINT64_MAX` the
final chunk's re-derived start can wrap to 0 and overlap the others). -/
theorem chunks_partition (MINTD MAXTD numThreads start stop D it : Nat)
    (h3 : 0 < MINTD) (h4 : MINTD ≤ MAXTD) (h5 : MAXTD + 30 ≤ U64MAX)
    (hstop : stop < U64MAX) (h6 : 1 ≤ numThreads)
    (ht2 : 2 ≤ idealNumThreads MINTD numThreads start stop)
    (hD : D = getThreadDistance MINTD MAXTD start stop
      (idealNumThreads MINTD numThreads start stop))
    (hit : it = itersOf start stop D) :
    (Finset.range it).biUnion
        (fun i => Finset.Icc (chunkStart start stop D i) (chunkStop start stop D i))
      = Finset.Icc start stop ∧
    ∀ i j, i < it → j < it → i ≠ j →
      Disjoint (Finset.Icc (chunkStart start stop D i) (chunkStop start stop D i))
        (Finset.Icc (chunkStart start stop D j) (chunkStop start stop D j)) := by
  obtain ⟨hss, -⟩ := start_lt_stop_of_ideal_two MINTD numThreads start stop h3 ht2
  have hnw := threadDistPre_add30_le MINTD MAXTD start stop _ h4 h5 (Nat.le_of_lt hstop) ht2
  have hDpos : 0 < D := by
    rw [hD]
    exact getThreadDistance_pos MINTD MAXTD start stop _ hnw
  subst hit
  exact ⟨chunks_cover start stop D hss hstop hDpos,
    fun i j hi hj hne => chunks_disjoint start stop D i j hss hstop hDpos hi hj hne⟩

/-- Witness for `chunks_partition`: the two chunks `[0, 92]` and `[93, 100]`
of the run over `[0, 100]` with `MINTD = 30`, `MAXTD = 1000000`,
`numThreads = 8` cover `[0, 100]` exactly. -/
theorem chunks_partition_witness :
    (Finset.range (itersOf 0 100 (getThreadDistance 30 1000000 0 100
        (idealNumThreads 30 8 0 100)))).biUnion
        (fun i => Finset.Icc
          (chunkStart 0 100 (getThreadDistance 30 1000000 0 100 (idealNumThreads 30 8 0 100)) i)
          (chunkStop 0 100 (getThreadDistance 30 1000000 0 100 (idealNumThreads 30 8 0 100)) i))
      = Finset.Icc 0 100 :=
  (chunks_partition 30 1000000 8 0 100
      (getThreadDistance 30 1000000 0 100 (idealNumThreads 30 8 0 100))
      (itersOf 0 100 (getThreadDistance 30 1000000 0 100 (idealNumThreads 30 8 0 100)))
      (by decide) (by decide) (by decide) (by decide) (by decide) (by decide) rfl rfl).1

/-- C1 counterexample: at `stop = UINT64_MAX` the parallel aggregate
differs from the sequential run: over
`[UINT64_MAX − 200000000120, UINT64_MAX]` with `MINTD = 30`,
`MAXTD = 2*10^10`, `numThreads = 2` the planner picks 2 threads and 11
chunks, and chunk 10's re-derived start wraps to 0, so the wrapped chunk
`[0, UINT64_MAX]` contains the number 0 that the requested range does not:
with an engine predicate counting occurrences of 0 the parallel Counters
are nonzero while the sequential Counters are zero. -/
theorem sieve_parallel_wrap_cex :
    (sieveResult (fun _ x => x == 0) 30 20000000000 2
        18446743873709551495 18446744073709551615).1
      ≠ engineCounts (fun _ x => x == 0) 18446743873709551495 18446744073709551615 := by
  intro h
  have h0 := congrFun h (0 : Fin 6)
  have hideal : idealNumThreads 30 2 18446743873709551495 18446744073709551615 = 2 := by
    simp only [idealNumThreads, getDistance, inBetween]
    rw [isqrt_u64max]
    decide
  have hD2 : getThreadDistance 30 20000000000 18446743873709551495 18446744073709551615 2
      = 20000000010 := by
    simp only [getThreadDistance, threadDistPre, getDistance, inBetween]
    rw [isqrt_u64max]
    decide
  have hit : itersOf 18446743873709551495 18446744073709551615 20000000010 = 11 := by decide
  have hbr : (sieveResult (fun _ x => x == 0) 30 20000000000 2
      18446743873709551495 18446744073709551615).1 (0 : Fin 6)
      = ∑ i ∈ Finset.range 11,
          engineCounts (fun _ x => x == 0)
            (chunkStart 18446743873709551495 18446744073709551615 20000000010 i)
            (chunkStop 18446743873709551495 18446744073709551615 20000000010 i)
            (0 : Fin 6) := by
    simp only [sieveResult]
    rw [if_neg (by decide : ¬ (18446744073709551615:Nat) < 18446743873709551495),
      if_neg (by rw [hideal]; decide), hideal, hD2, hit]
  rw [hbr] at h0
  have hrhs : engineCounts (fun _ x => x == 0) 18446743873709551495 18446744073709551615
      (0 : Fin 6) = 0 := by
    simp only [engineCounts, beq_iff_eq]
    rw [Finset.filter_eq', if_neg (by rw [Finset.mem_Icc]; omega)]
    rfl
  rw [hrhs] at h0
  have hall := (Finset.sum_eq_zero_iff).mp h0 10 (Finset.mem_range.mpr (by omega))
  simp only [] at hall
  have hcs : chunkStart 18446743873709551495 18446744073709551615 20000000010 10 = 0 := by
    decide
  have hct : chunkStop 18446743873709551495 18446744073709551615 20000000010 10
      = 18446744073709551615 := by decide
  rw [hcs, hct] at hall
  have hterm : engineCounts (fun _ x => x == 0) 0 18446744073709551615 (0 : Fin 6) = 1 := by
    simp only [engineCounts, beq_iff_eq]
    rw [Finset.filter_eq',
      if_pos (Finset.mem_Icc.mpr ⟨Nat.le_refl 0, Nat.zero_le 18446744073709551615⟩)]
    rfl
  rw [hterm] at hall
  exact Nat.one_ne_zero hall

/-- C1 (amended): for every range with `start ≤ stop` and
`stop < UINT64_MAX` and every configured thread count, the final Counters
of the parallel sieve equal those of the single-threaded engine run over
`[start, stop]`: the aggregate is independent of thread count and of
chunk-to-thread assignment order (at `stop = UINT64_MAX` the wrapped final
chunk re-sieves `[0, UINT64_MAX]` and the aggregate overcounts). -/
theorem sieve_parallel_eq_sequential (p : Fin 6 → Nat → Bool)
    (MINTD MAXTD numThreads start stop : Nat)
    (h1 : start ≤ stop) (hstop : stop < U64MAX) (h3 : 0 < MINTD) (h4 : MINTD ≤ MAXTD)
    (h5 : MAXTD + 30 ≤ U64MAX) (h6 : 1 ≤ numThreads) :
    (sieveResult p MINTD MAXTD numThreads start stop).1 = engineCounts p start stop := by
  simp only [sieveResult]
  rw [if_neg (by omega : ¬ stop < start)]
  by_cases hone : idealNumThreads MINTD numThreads start stop = 1
  · rw [if_pos hone]
  · rw [if_neg hone]
    have ht2 : 2 ≤ idealNumThreads MINTD numThreads start stop := by
      have := idealNumThreads_pos MINTD numThreads start stop h6
      omega
    obtain ⟨hss, -⟩ := start_lt_stop_of_ideal_two MINTD numThreads start stop h3 ht2
    have hnw := threadDistPre_add30_le MINTD MAXTD start stop _ h4 h5 (Nat.le_of_lt hstop) ht2
    have hDpos : 0 < getThreadDistance MINTD MAXTD start stop
        (idealNumThreads MINTD numThreads start stop) :=
      getThreadDistance_pos MINTD MAXTD start stop _ hnw
    funext j
    simp only [engineCounts]
    have hdisj : ∀ a ∈ Finset.range (itersOf start stop (getThreadDistance MINTD MAXTD start
          stop (idealNumThreads MINTD numThreads start stop))),
        ∀ b ∈ Finset.range (itersOf start stop (getThreadDistance MINTD MAXTD start stop
          (idealNumThreads MINTD numThreads start stop))), a ≠ b →
        Disjoint
          ((Finset.Icc
            (chunkStart start stop (getThreadDistance MINTD MAXTD start stop
              (idealNumThreads MINTD numThreads start stop)) a)
            (chunkStop start stop (getThreadDistance MINTD MAXTD start stop
              (idealNumThreads MINTD numThreads start stop)) a)).filter
            (fun x => p j x = true))
          ((Finset.Icc
            (chunkStart start stop (getThreadDistance MINTD MAXTD start stop
              (idealNumThreads MINTD numThreads start stop)) b)
            (chunkStop start stop (getThreadDistance MINTD MAXTD start stop
              (idealNumThreads MINTD numThreads start stop)) b)).filter
            (fun x => p j x = true)) := by
      intro a ha b hb hne
      exact Finset.disjoint_filter_filter
        (chunks_disjoint start stop _ a b hss hstop hDpos
          (Finset.mem_range.mp ha) (Finset.mem_range.mp hb) hne)
    rw [← chunks_cover start stop _ hss hstop hDpos, Finset.filter_biUnion,
      Finset.card_biUnion hdisj]

/-- Witness for `sieve_parallel_eq_sequential` over `[0, 100]` with
`MINTD = 30`, `MAXTD = 1000000`, `numThreads = 8`. -/
theorem sieve_parallel_eq_sequential_witness :
    (sieveResult (fun _ x => x % 2 == 0) 30 1000000 8 0 100).1 =
      engineCounts (fun _ x => x % 2 == 0) 0 100 :=
  sieve_parallel_eq_sequential (fun _ x => x % 2 == 0) 30 1000000 8 0 100
    (by decide) (by decide) (by decide) (by decide) (by decide) (by decide)

/-- C4 counterexample: the planner's result does not always lie within
`[MIN_THREAD_DISTANCE, MAX_THREAD_DISTANCE]`: with `MINTD = 30`,
`MAXTD = 90`, range `[0, 1800]` and 2 threads the pre-round value is
clamped to 90 and the final round-up to a multiple of 30 yields 120. -/
theorem threadDistance_clamp_cex : ¬ getThreadDistance 30 90 0 1800 2 ≤ 90 := by decide

/-- Evidence that the single-thread huge-distance carve-out in the amended
C4 is forced: with `MINTD = MAXTD = 4*10^18`, one thread and the range
`[0, UINT64_MAX]` the fallback picks `UINT64_MAX` and the uint64 round-up
`threadDistance += 30 - threadDistance % 30` wraps to 14 — neither a
multiple of 30 nor at least `MIN_THREAD_DISTANCE`. -/
theorem threadDistance_wrap_corner :
    getThreadDistance 4000000000000000000 4000000000000000000 0 18446744073709551615 1
      = 14 := by
  simp only [getThreadDistance, threadDistPre, getDistance, inBetween]
  rw [isqrt_u64max]
  decide

/-- C4 (amended): for every range and every thread count in
`[1, numThreads]`, the planner's `threadDistance` is a positive multiple of
30 and at least `MIN_THREAD_DISTANCE`, except in the corner of a single
thread with `distance > UINT64_MAX − 30`, where the uint64 round-up itself
wraps; the round-up (applied after the clamp) can push the result past
`MAX_THREAD_DISTANCE`. -/
theorem threadDistance_mult30 (MINTD MAXTD start stop threads : Nat)
    (h3 : 0 < MINTD) (h4 : MINTD ≤ MAXTD) (h5 : MAXTD + 30 ≤ U64MAX)
    (hstop : stop ≤ U64MAX) (ht : 1 ≤ threads)
    (hcorner : 2 ≤ threads ∨ getDistance start stop + 30 ≤ U64MAX) :
    0 < getThreadDistance MINTD MAXTD start stop threads ∧
    getThreadDistance MINTD MAXTD start stop threads % 30 = 0 ∧
    MINTD ≤ getThreadDistance MINTD MAXTD start stop threads := by
  have hnw : threadDistPre MINTD MAXTD start stop threads + 30 ≤ U64MAX := by
    rcases hcorner with ht2 | hd
    · exact threadDistPre_add30_le MINTD MAXTD start stop threads h4 h5 hstop ht2
    · have h1 := threadDistPre_le MINTD MAXTD start stop threads h4
      have h2 : getDistance start stop / threads ≤ getDistance start stop :=
        Nat.div_le_self _ _
      omega
  have hge := threadDistPre_ge MINTD MAXTD start stop threads h4
  rw [getThreadDistance_eq MINTD MAXTD start stop threads hnw]
  omega

/-- Witness for `threadDistance_mult30` at `MINTD = 30`, `MAXTD = 90`,
range `[0, 1800]`, 2 threads (where the result is 120). -/
theorem threadDistance_mult30_witness :
    0 < getThreadDistance 30 90 0 1800 2 ∧
    getThreadDistance 30 90 0 1800 2 % 30 = 0 ∧
    30 ≤ getThreadDistance 30 90 0 1800 2 :=
  threadDistance_mult30 30 90 0 1800 2 (by decide) (by decide) (by decide)
    (by decide) (by decide) (Or.inl (by decide))

/-- C7: `idealNumThreads` returns 1 on an empty range and otherwise clamps
`distance / threshold` into `[1, numThreads]` with
`threshold = max(MIN_THREAD_DISTANCE, isqrt(stop) / 5)`; in particular it
returns 1 whenever `distance < threshold`. -/
theorem idealNumThreads_spec (MINTD numThreads start stop : Nat) (h6 : 1 ≤ numThreads) :
    idealNumThreads MINTD numThreads start stop
      = idealNumThreadsSpec MINTD numThreads start stop ∧
    (getDistance start stop < max MINTD (isqrt stop / 5) →
      idealNumThreads MINTD numThreads start stop = 1) := by
  constructor
  · simp only [idealNumThreads, idealNumThreadsSpec, clampSpec, inBetween]
    split_ifs <;> omega
  · intro h
    have h0 : getDistance start stop / max MINTD (isqrt stop / 5) = 0 :=
      Nat.div_eq_of_lt h
    simp only [idealNumThreads, inBetween]
    split_ifs <;> omega

/-- Witness for `idealNumThreads_spec` at `MINTD = 30`, `numThreads = 8`,
range `[0, 100]`. -/
theorem idealNumThreads_spec_witness :
    idealNumThreads 30 8 0 100 = idealNumThreadsSpec 30 8 0 100 :=
  (idealNumThreads_spec 30 8 0 100 (by decide)).1

/-- C8: a run with `start > stop` is not an error: all six Counters are
zero and no worker thread is spawned. -/
theorem sieve_empty_range (p : Fin 6 → Nat → Bool) (MINTD MAXTD numThreads start stop : Nat)
    (h : stop < start) :
    (∀ j, (sieveResult p MINTD MAXTD numThreads start stop).1 j = 0) ∧
    (sieveResult p MINTD MAXTD numThreads start stop).2 = 0 := by
  simp only [sieveResult]
  rw [if_pos h]
  exact ⟨fun _ => rfl, rfl⟩

/-- Witness for `sieve_empty_range` at the empty range `[101, 100]`. -/
theorem sieve_empty_range_witness :
    (sieveResult (fun _ _ => true) 30 1000000 8 101 100).2 = 0 :=
  (sieve_empty_range (fun _ _ => true) 30 1000000 8 101 100 (by decide)).2

/-- C9 counterexample: the number of threads spawned is not
`min(numThreads, iters)`: over `[562190, 562500]` with `MINTD = MAXTD = 30`
and `numThreads = 4`, the planner chooses 2 ideal threads, `iters = 6`, and
the pool holds `2 ≠ min(4, 6)` threads. -/
theorem spawned_threads_cex :
    (sieveResult (fun _ _ => false) 30 30 4 562190 562500).2 ≠
      min 4 (itersOf 562190 562500
        (getThreadDistance 30 30 562190 562500 (idealNumThreads 30 4 562190 562500))) := by
  decide

/-- C9 (amended): in a multi-threaded run the number of threads spawned is
`min(t, iters)` where `t = idealNumThreads()` is the planner's thread
choice (itself at most `numThreads`); in particular the pool never holds
more threads than there are chunks. -/
theorem spawned_threads_eq (p : Fin 6 → Nat → Bool)
    (MINTD MAXTD numThreads start stop : Nat)
    (h3 : 0 < MINTD) (h6 : 1 ≤ numThreads)
    (ht2 : 2 ≤ idealNumThreads MINTD numThreads start stop) :
    (sieveResult p MINTD MAXTD numThreads start stop).2 =
      min (idealNumThreads MINTD numThreads start stop)
        (itersOf start stop (getThreadDistance MINTD MAXTD start stop
          (idealNumThreads MINTD numThreads start stop))) ∧
    (sieveResult p MINTD MAXTD numThreads start stop).2 ≤
      itersOf start stop (getThreadDistance MINTD MAXTD start stop
        (idealNumThreads MINTD numThreads start stop)) := by
  obtain ⟨hss, -⟩ := start_lt_stop_of_ideal_two MINTD numThreads start stop h3 ht2
  simp only [sieveResult]
  rw [if_neg (by omega : ¬ stop < start), if_neg (by omega :
    ¬ idealNumThreads MINTD numThreads start stop = 1)]
  have hit : 1 ≤ itersOf start stop (getThreadDistance MINTD MAXTD start stop
      (idealNumThreads MINTD numThreads start stop)) := by
    unfold itersOf
    exact Nat.le_add_left 1 _
  constructor <;> simp only [inBetween] <;> split_ifs <;> omega

/-- Witness for `spawned_threads_eq` at the counterexample instance (2
threads spawned, `min(2, 6) = 2`). -/
theorem spawned_threads_eq_witness :
    (sieveResult (fun _ _ => true) 30 30 4 562190 562500).2 =
      min (idealNumThreads 30 4 562190 562500)
        (itersOf 562190 562500 (getThreadDistance 30 30 562190 562500
          (idealNumThreads 30 4 562190 562500))) :=
  (spawned_threads_eq (fun _ _ => true) 30 30 4 562190 562500
    (by decide) (by decide) (by decide)).1

/-- C6 counterexample: a successful `updateStatus` does not write counts or
elapsed time into the sink — only the status percentage: here the sink's
counts (constantly 3) and seconds (7) are left exactly as they were, while
only the status field is recomputed (to 50). -/
theorem updateStatus_sink_cex :
    (updateStatus 100 ⟨10, 10, some ⟨fun _ => 3, 7, 55⟩⟩ 40 true false).1 = true ∧
    (updateStatus 100 ⟨10, 10, some ⟨fun _ => 3, 7, 55⟩⟩ 40 true false).2.shm
      = some ⟨fun _ => 3, 7, 50⟩ :=
  ⟨rfl, rfl⟩

/-- C6 (amended): `updateStatus(processed, wait)`: when the status lock is
acquired (always when `wait` is true, and when the lock is not busy
otherwise) it adds `processed` to the running total, recomputes the
percentage, writes only the status percentage into the attached sink (the
sink's counts and elapsed seconds are untouched by `updateStatus`; they are
published at the end of `sieve()`), and returns `true`; when `wait` is
false and the lock is busy it returns `false` and performs no side
effects. -/
theorem updateStatus_spec (distance : Nat) (s : StatusState) (processed : Nat)
    (wait busy : Bool) :
    ((wait || !busy) = true →
      (updateStatus distance s processed wait busy).1 = true ∧
      (updateStatus distance s processed wait busy).2.totalProcessed
        = s.totalProcessed + processed ∧
      (updateStatus distance s processed wait busy).2.percent
        = statusPercent distance (s.totalProcessed + processed) ∧
      (s.shm = none →
        (updateStatus distance s processed wait busy).2.shm = none) ∧
      (∀ v, s.shm = some v →
        (updateStatus distance s processed wait busy).2.shm
          = some ⟨v.counts, v.seconds,
              statusPercent distance (s.totalProcessed + processed)⟩)) ∧
    (wait = false → busy = true →
      (updateStatus distance s processed wait busy).1 = false ∧
      (updateStatus distance s processed wait busy).2 = s) := by
  constructor
  · intro h
    simp only [updateStatus]
    rw [if_pos h]
    refine ⟨rfl, rfl, rfl, ?_, ?_⟩
    · intro hn
      simp [hn]
    · intro v hv
      simp [hv]
  · intro hw hb
    subst hw hb
    simp only [updateStatus]
    rw [if_neg (by simp)]
    exact ⟨rfl, rfl⟩

/-- Witness for `updateStatus_spec`: a busy non-blocking update over a
state with an attached sink returns `false` and changes nothing. -/
theorem updateStatus_spec_witness :
    (updateStatus 100 ⟨10, 10, some ⟨fun _ => 3, 7, 55⟩⟩ 40 false true).1 = false ∧
    (updateStatus 100 ⟨10, 10, some ⟨fun _ => 3, 7, 55⟩⟩ 40 false true).2
      = ⟨10, 10, some ⟨fun _ => 3, 7, 55⟩⟩ :=
  (updateStatus_spec 100 ⟨10, 10, some ⟨fun _ => 3, 7, 55⟩⟩ 40 false true).2 rfl rfl

end Primesieve
